import Mathlib

/-!
Verification development for the llm-council backend
(`backend/openrouter.py`, `backend/main.py`, `backend/config.py`,
`backend/docker_utils.py`).

The Python code is shallowly embedded: every external effect (an HTTP
request, the container runtime, a client-disconnect probe, the arrival
order of concurrently produced results) is a parameter — an oracle or
"world" — and the Python control flow is translated into total Lean
functions over those parameters.  Python exception semantics is modelled
by `PyResult`: `except Exception` catches `Exn.error _` but not
`Exn.cancelled` (in Python, `asyncio.CancelledError` derives from
`BaseException`, not `Exception`).
-/

/-- Python exceptions, split the way `except Exception` splits them:
`cancelled` models `asyncio.CancelledError` (not caught by
`except Exception`), `error c` models any ordinary exception, tagged with
a numeric code standing for its type. -/
inductive Exn : Type
  | cancelled : Exn
  | error : Nat → Exn
deriving DecidableEq, Repr

/-- Result of running a piece of Python code: a value or a raised exception. -/
inductive PyResult (α : Type) : Type
  | val : α → PyResult α
  | exn : Exn → PyResult α

def PyResult.bind {α β : Type} : PyResult α → (α → PyResult β) → PyResult β
  | .exn e, _ => .exn e
  | .val a, f => f a

instance : Monad PyResult where
  pure := PyResult.val
  bind := PyResult.bind

/-- Minimal JSON values, the payloads exchanged with the backends. -/
inductive Json : Type
  | null : Json
  | str : String → Json
  | num : Int → Json
  | arr : List Json → Json
  | obj : List (String × Json) → Json

mutual

/-- Structural equality on JSON values, modelling Python `==`. -/
def Json.beq : Json → Json → Bool
  | .null, .null => true
  | .str a, .str b => a == b
  | .num a, .num b => a == b
  | .arr xs, .arr ys => Json.beqList xs ys
  | .obj fs, .obj gs => Json.beqObj fs gs
  | _, _ => false

def Json.beqList : List Json → List Json → Bool
  | [], [] => true
  | x :: xs, y :: ys => Json.beq x y && Json.beqList xs ys
  | _, _ => false

def Json.beqObj : List (String × Json) → List (String × Json) → Bool
  | [], [] => true
  | (k, v) :: fs, (l, w) :: gs => k == l && Json.beq v w && Json.beqObj fs gs
  | _, _ => false

end

instance : BEq Json := ⟨Json.beq⟩

/-- Python `data[k]` on a JSON value: `KeyError` (code 1) when the key is
absent from a dict, `TypeError` (code 2) when the value is not a dict. -/
def Json.index (j : Json) (k : String) : PyResult Json :=
  match j with
  | .obj fs =>
    match fs.find? (fun p => p.1 == k) with
    | some p => .val p.2
    | none => .exn (.error 1)
  | _ => .exn (.error 2)

/-- Python `data[i]` on a JSON value: `IndexError` (code 3) when out of
range, `TypeError` (code 2) when the value is not a list. -/
def Json.indexNat (j : Json) (i : Nat) : PyResult Json :=
  match j with
  | .arr xs =>
    match xs[i]? with
    | some x => .val x
    | none => .exn (.error 3)
  | _ => .exn (.error 2)

/-- Python `data.get(k)` (with default `None`): returns the value, or
`None` when the key is absent; `AttributeError` (code 4) when the
receiver is not a dict. A present JSON `null` and an absent key both
come back as `Json.null`, exactly as Python collapses them to `None`. -/
def Json.pyGet (j : Json) (k : String) : PyResult Json :=
  match j with
  | .obj fs => .val ((((fs.find? (fun p => p.1 == k))).map (fun p => p.2)).getD Json.null)
  | _ => .exn (.error 4)

/-- Python `data.get(k, {})`: like `pyGet` but with an empty dict default. -/
def Json.pyGetOrEmpty (j : Json) (k : String) : PyResult Json :=
  match j with
  | .obj fs => .val ((((fs.find? (fun p => p.1 == k))).map (fun p => p.2)).getD (Json.obj []))
  | _ => .exn (.error 4)

/-- Python `k in data`: key membership for a dict, element membership for
a list, substring test for a string, `TypeError` (code 6) otherwise. -/
def Json.hasKey (j : Json) (k : String) : PyResult Bool :=
  match j with
  | .obj fs => .val (fs.any (fun p => p.1 == k))
  | .arr xs => .val (xs.any (fun x => x == .str k))
  | .str s => .val (decide ((s.splitOn k).length > 1))
  | _ => .exn (.error 6)

/-- Python `l[-1]`: the last element, `IndexError` (code 3) on an empty list. -/
def pyLast {α : Type} (l : List α) : PyResult α :=
  match l.getLast? with
  | some x => .val x
  | none => .exn (.error 3)

/-- The `Response` dict built by every client:
`{"content": ..., "reasoning_details": ...}`. -/
structure Resp : Type where
  content : Json
  reasoning_details : Json

/-- Model identifiers are opaque strings. -/
abbrev Model := String

/-- Python `model.partition("/")[0]`: the text before the first `/`
(the whole string when there is none). -/
def modelPrefix (m : Model) : String := String.mk (m.data.takeWhile (fun c => c != '/'))

/-- Classification used by `query_model` and `query_models_parallel`:
a model is local-managed iff its prefix is `local`. -/
def isLocalModel (m : Model) : Bool := modelPrefix m == "local"

/-- Python `model.split("/", 1)[1] if "/" in model else model`: strip the
provider prefix. -/
def stripProviderPrefix (m : Model) : String :=
  match m.splitOn "/" with
  | _ :: rest@(_ :: _) => String.intercalate "/" rest
  | _ => m

/-- Translation of Python's `except Exception: return None` around a body
producing an optional `Resp`: ordinary exceptions become `none`,
`asyncio.CancelledError` propagates. -/
def exceptToNone (body : PyResult (Option Resp)) : PyResult (Option Resp) :=
  match body with
  | .exn (.error _) => .val none
  | other => other

/-- Translation of `response.raise_for_status()`: raises (code 5) on a
4xx/5xx status. -/
def raise_for_status (status : Nat) : PyResult Unit :=
  if status ≥ 400 then .exn (.error 5) else .val ()

/-- One HTTP response as the world presents it to the client: a status
code and the outcome of `.json()` (which may itself raise on a
malformed body). -/
structure HttpResponse : Type where
  status : Nat
  body : PyResult Json

/-- Everything the outside world decides during one `query_openrouter`
call: the outcome of the single `client.post` (an exception models a
connection error, timeout or cancellation at the await point). -/
structure ORWorld : Type where
  post : PyResult HttpResponse

/-- Embedding of `query_openrouter` (backend/openrouter.py, lines
140-171): one POST, `raise_for_status`, extract
`data["choices"][0]["message"]`, build the response dict from
`message.get("content")` and `message.get("reasoning_details")`; the
whole body sits in `try ... except Exception: return None`. -/
def query_openrouter (w : ORWorld) : PyResult (Option Resp) :=
  exceptToNone (do
    let response ← w.post
    let _ ← raise_for_status response.status
    let data ← response.body
    let choices ← data.index "choices"
    let c0 ← choices.indexNat 0
    let message ← c0.index "message"
    let content ← message.pyGet "content"
    let rd ← message.pyGet "reasoning_details"
    pure (some ⟨content, rd⟩))

/-- Everything the outside world decides during one `query_ollama` call:
whether `OLLAMA_API_URL` is configured, the outcome of the POST to the
native `/api/chat` endpoint, and the outcome of the fallback POST to the
OpenAI-compatible endpoint (used only on a 404). -/
structure OllamaWorld : Type where
  api_url : Option String
  postNative : PyResult HttpResponse
  postOpenai : PyResult HttpResponse

/-- Embedding of `query_ollama` (backend/openrouter.py, lines 85-137):
short-circuit `None` when `OLLAMA_API_URL` is unset; POST to the native
endpoint, falling back to the OpenAI-compatible endpoint on a 404;
`raise_for_status`; then tolerate two response shapes — the native shape
(`"message" in data`) and the OpenAI shape (`"choices" in data`) — with
`content = None` when neither key is present.  The whole HTTP section
sits in `try ... except Exception: return None`. -/
def query_ollama (w : OllamaWorld) : PyResult (Option Resp) :=
  match w.api_url with
  | none => .val none
  | some _ =>
    exceptToNone (do
      let response ← w.postNative
      let response ←
        if response.status == 404 then w.postOpenai else pure response
      let _ ← raise_for_status response.status
      let data ← response.body
      let hasMessage ← data.hasKey "message"
      let content ←
        if hasMessage then do
          let message ← data.pyGetOrEmpty "message"
          message.pyGet "content"
        else do
          let hasChoices ← data.hasKey "choices"
          if hasChoices then do
            let choices ← data.index "choices"
            let c0 ← choices.indexNat 0
            let message ← c0.index "message"
            message.index "content"
          else
            pure Json.null
      pure (some ⟨content, Json.null⟩))

/-- Lifecycle events of the Ramalama-managed runtime during one query:
`enter` is the `with RamalamaModel(...)` entry (runtime started), `chat`
is the single chat turn with its new-turn text and history, `exit` is
the context-manager exit (runtime stopped/detached). -/
inductive RmEv : Type
  | enter : RmEv
  | chat : Json → List Json → RmEv
  | exit : RmEv

/-- Everything the outside world decides during one `query_ramalama`
call: the docker-socket probe, the outcome of `RamalamaModel.__enter__`
(starting the containerised runtime), and the outcome of `rm.chat`. -/
structure RamalamaWorld : Type where
  dockerAccess : Bool
  enter : PyResult Unit
  chatResult : PyResult Json

/-- Embedding of the `run_sync` closure inside `query_ramalama`
(backend/openrouter.py, lines 63-72), with Python `with`-statement
semantics: `__exit__` runs on every path once `__enter__` succeeded,
including when the body raises; when `__enter__` itself raises, no
runtime was started and `__exit__` is not called.  The body computes
`history = messages[:-1]`, then
`rm.chat(messages[-1]["content"], history=history)`, then builds
`{"content": reply.get("content"), "reasoning_details": None}`.
Returns the event trace alongside the Python result. -/
def run_sync (w : RamalamaWorld) (messages : List Json) :
    List RmEv × PyResult Resp :=
  match w.enter with
  | .exn e => ([], .exn e)
  | .val _ =>
    let history := messages.dropLast
    match pyLast messages with
    | .exn e => ([RmEv.enter, RmEv.exit], .exn e)
    | .val lastMsg =>
      match lastMsg.index "content" with
      | .exn e => ([RmEv.enter, RmEv.exit], .exn e)
      | .val newTurn =>
        match w.chatResult with
        | .exn e => ([RmEv.enter, RmEv.chat newTurn history, RmEv.exit], .exn e)
        | .val reply =>
          match reply.pyGet "content" with
          | .exn e => ([RmEv.enter, RmEv.chat newTurn history, RmEv.exit], .exn e)
          | .val c =>
            ([RmEv.enter, RmEv.chat newTurn history, RmEv.exit],
             .val ⟨c, Json.null⟩)

/-- Embedding of `query_ramalama` (backend/openrouter.py, lines 49-82):
return `None` immediately when there is no docker-socket access; run
`run_sync` in a worker thread; the except clauses
(`RamalamaNoContainerManagerError`, `RamalamaServerTimeoutError`,
`Exception`) all convert an ordinary exception to `None`, while
`asyncio.CancelledError` at the await propagates.  Returns the runtime
event trace alongside the Python result. -/
def query_ramalama (w : RamalamaWorld) (messages : List Json) :
    List RmEv × PyResult (Option Resp) :=
  if w.dockerAccess then
    match run_sync w messages with
    | (tr, .val resp) => (tr, .val (some resp))
    | (tr, .exn (.error _)) => (tr, .val none)
    | (tr, .exn .cancelled) => (tr, .exn .cancelled)
  else
    ([], .val none)

/-- Abstract outcome of `query_model` for one model, as
`query_models_parallel` observes it: a returned optional response, or an
ordinary exception (code-tagged).  The engine's own cancellation is
modelled separately; `run_and_tag` re-raises `CancelledError`, which can
only reach it after the engine has already decided to cancel. -/
inductive QOutcome : Type
  | ok : Option Resp → QOutcome
  | exn : Nat → QOutcome

/-- The response recorded for an outcome: the client's value, or `None`
when the query raised. -/
def QOutcome.resp : QOutcome → Option Resp
  | .ok r => r
  | .exn _ => none

/-- Embedding of the inner `run_and_tag` (backend/openrouter.py, lines
205-212): tag the outcome with the model name, converting an ordinary
exception into `(model, None, exc)`. -/
def run_and_tag (outcome : Model → QOutcome) (m : Model) :
    Model × Option Resp × Option Nat :=
  match outcome m with
  | .ok r => (m, r, none)
  | .exn e => (m, none, some e)

/-- Behaviour of one `on_progress` invocation: return normally, raise an
ordinary exception (swallowed and logged by the engine), or raise
`asyncio.CancelledError`. -/
inductive PBeh : Type
  | ok : PBeh
  | exn : Nat → PBeh
  | cancel : PBeh
deriving DecidableEq, Repr

/-- The `responses` Python dict, as an insertion-ordered association list. -/
abbrev RDict := List (Model × Option Resp)

/-- Python `d[k] = v`: overwrite in place when the key exists, append
otherwise. -/
def dictSet (d : RDict) (k : Model) (v : Option Resp) : RDict :=
  if d.any (fun p => p.1 == k) then
    d.map (fun p => if p.1 == k then (k, v) else p)
  else d ++ [(k, v)]

/-- Key list of the dict, in insertion order. -/
def dictKeys (d : RDict) : List Model := d.map (fun p => p.1)

/-- Python `d[k]` lookup, `none` when absent. -/
def dictGet (d : RDict) (k : Model) : Option (Option Resp) :=
  (d.find? (fun p => p.1 == k)).map (fun p => p.2)

/-- Observable events of one engine run, in program order: a model's
outcome being recorded into `responses`, then (when requested) the
`on_progress` invocation for it. -/
inductive EngEv : Type
  | recorded : Model → Option Resp → EngEv
  | progressed : Model → Option Resp → EngEv

/-- Result of one `query_models_parallel` run: the `responses` dict, the
`on_progress` invocations in order, the event trace, whether a
`CancelledError` from `on_progress` propagated out, and — in that case —
the models whose queued results were never drained (the engine cancels
every producer task that is not yet done; a task still in flight is
always among these). -/
structure EngineRun : Type where
  responses : RDict
  calls : List (Model × Option Resp)
  trace : List EngEv
  cancelled : Bool
  pendingCancelled : List Model

/-- Embedding of the drain loop of `query_models_parallel`
(backend/openrouter.py, lines 241-266), parameterised by the order in
which tagged results arrive on the queue.  For each arrival: record the
response into the dict, then, when `on_progress` is supplied, invoke it;
an ordinary exception from it is swallowed (logged) and the loop
continues, while `CancelledError` makes the engine cancel all pending
producer tasks and re-raise. -/
def drainLoop (outcome : Model → QOutcome)
    (progress : Option (Model → Option Resp → PBeh)) :
    List Model → RDict → List (Model × Option Resp) → List EngEv → EngineRun
  | [], d, calls, tr => ⟨d, calls, tr, false, []⟩
  | m :: rest, d, calls, tr =>
    let tagged := run_and_tag outcome m
    let name := tagged.1
    let response := tagged.2.1
    let d2 := dictSet d name response
    let tr2 := tr ++ [EngEv.recorded name response]
    match progress with
    | none => drainLoop outcome none rest d2 calls tr2
    | some f =>
      let calls2 := calls ++ [(name, response)]
      let tr3 := tr2 ++ [EngEv.progressed name response]
      match f name response with
      | .cancel => ⟨d2, calls2, tr3, true, rest⟩
      | _ => drainLoop outcome (some f) rest d2 calls2 tr3

/-- The local-lane partition (backend/openrouter.py, line 224):
`[m for m in models if m.partition("/")[0] == "local"]`. -/
def local_models (models : List Model) : List Model :=
  models.filter (fun m => isLocalModel m)

/-- The parallel-lane partition (backend/openrouter.py, line 225):
`[m for m in models if m not in local_models]`. -/
def parallel_models (models : List Model) : List Model :=
  models.filter (fun m => !((local_models models).contains m))

/-- Embedding of `query_models_parallel` (backend/openrouter.py, lines
198-268).  Concurrency is abstracted by `arrival`: the order in which
the producer tasks' results reach the shared queue.  Any schedule the
event loop can realise yields an `arrival` that is a permutation of
`models` preserving the relative order of the local lane (the local
producer enqueues its models strictly in list order); see
`ValidArrival`. -/
def query_models_parallel (models : List Model) (outcome : Model → QOutcome)
    (progress : Option (Model → Option Resp → PBeh))
    (arrival : List Model) : EngineRun :=
  drainLoop outcome progress (arrival.take models.length) [] [] []

/-- Arrival orders realisable by the producer structure of
`query_models_parallel`: each model's result is enqueued exactly once,
and the sequential local lane enqueues local models in their input
order. -/
def ValidArrival (models arrival : List Model) : Prop :=
  arrival.Perm models ∧
  arrival.filter (fun m => isLocalModel m) = local_models models

/-- The supplied progress callback (if any) never raises
`asyncio.CancelledError`. -/
def NoCancelProg (progress : Option (Model → Option Resp → PBeh)) : Prop :=
  ∀ f, progress = some f → ∀ m r, f m r ≠ PBeh.cancel

/-- Fine-grained execution events for the concurrency-policy model: a
model's query starting and finishing. -/
inductive TEv : Type
  | start : Model → TEv
  | finish : Model → TEv
deriving DecidableEq, Repr

/-- The model an execution event belongs to. -/
def TEv.model : TEv → Model
  | .start m => m
  | .finish m => m

/-- The two events of one query's execution interval. -/
def queryEvents (m : Model) : List TEv := [TEv.start m, TEv.finish m]

/-- Program of the sequential local lane (`run_local_sequential`,
backend/openrouter.py, lines 214-217): the local models' execution
intervals one after another, in input order. -/
def localLaneProgram (models : List Model) : List TEv :=
  (local_models models).flatMap queryEvents

/-- Interleaved execution traces realisable by the task structure of
`query_models_parallel`: the single local-lane task contributes its
events in program order (one query at a time, back to back), and each
parallel model's task contributes its own start/finish pair; the
scheduler may interleave the tasks arbitrarily. -/
def ValidTrace (models : List Model) (tr : List TEv) : Prop :=
  tr.filter (fun e => isLocalModel e.model) = localLaneProgram models ∧
  ∀ m ∈ parallel_models models, tr.filter (fun e => e.model == m) = queryEvents m

/-- A model's query is in flight after prefix `p` of a trace: started
more often than finished. -/
def inFlight (p : List TEv) (m : Model) : Bool :=
  p.count (TEv.finish m) < p.count (TEv.start m)

/-- Number of local-managed models in flight after prefix `p`. -/
def localInFlight (models : List Model) (p : List TEv) : Nat :=
  ((local_models models).filter (fun m => inFlight p m)).length

/-- Number of parallel-lane models in flight after prefix `p`. -/
def parallelInFlight (models : List Model) (p : List TEv) : Nat :=
  ((parallel_models models).filter (fun m => inFlight p m)).length

/-- Label-to-model lookup from the stage-2 `label_to_model` map. -/
def lookupLabel (labelToModel : List (String × String)) (l : String) :
    Option String :=
  (labelToModel.find? (fun p => p.1 == l)).map (fun p => p.2)

/-- Modelled from the spec: points one parsed ranking awards to one
model.  `calculate_aggregate_rankings` lives in `backend/council.py`,
which is not among the provided sources (only its call site in
`backend/main.py`, line 285, is), so the scoring rule is taken from spec
§4.5: the label at 0-indexed position `p` in a ranking of `n` labels is
worth `n - p` points for the model that label maps to; labels with no
mapping are skipped. -/
def rankingPointsFor (labels : List String)
    (labelToModel : List (String × String)) (model : String) : Nat :=
  labels.enum.foldl (fun acc pl =>
    match lookupLabel labelToModel pl.2 with
    | some m => if m == model then acc + (labels.length - pl.1) else acc
    | none => acc) 0

/-- Modelled from the spec: a model's total score, summed across all
ranking models' parsed label lists (spec §4.5). -/
def totalScore (parsed : List (List String))
    (labelToModel : List (String × String)) (model : String) : Nat :=
  (parsed.map (fun labels => rankingPointsFor labels labelToModel model)).sum

/-- Lexicographic order on character lists by Unicode code point, the
order Python uses to compare strings. -/
def charListLe : List Char → List Char → Bool
  | [], _ => true
  | _ :: _, [] => false
  | a :: as, b :: bs =>
    a.toNat < b.toNat || (a.toNat == b.toNat && charListLe as bs)

/-- Python string comparison `a <= b`: code-point lexicographic. -/
def strLe (a b : String) : Bool := charListLe a.data b.data

/-- Sort key of the final aggregate: total score descending, ties broken
by model identifier in ascending lexical order (spec §4.5). -/
def aggregateLe (a b : String × Nat) : Bool :=
  b.2 < a.2 || (a.2 == b.2 && strLe a.1 b.1)

/-- The aggregate order as a decidable relation, for sorting. -/
def aggRel (a b : String × Nat) : Prop := aggregateLe a b = true

instance : DecidableRel aggRel := fun a b => instDecidableEqBool (aggregateLe a b) true

/-- Modelled from the spec: `calculate_aggregate_rankings`
(`backend/council.py`, absent from the provided sources; spec §4.5).
Input is the per-ranker parsed label lists (the free-text extraction
grammar is implementation-defined per the spec, so the embedding starts
from extracted labels) and the label→model map; every mapped model is
scored, and the result is sorted by score descending with ties broken by
ascending model identifier. -/
def calculate_aggregate_rankings (parsed : List (List String))
    (labelToModel : List (String × String)) : List (String × Nat) :=
  List.insertionSort aggRel
    (((labelToModel.map (fun p => p.2))).map
      (fun m => (m, totalScore parsed labelToModel m)))

/-- Events the streaming endpoint's `event_generator` can yield
(backend/main.py, lines 198-323), at the granularity the claims need. -/
inductive StreamEv : Type
  | stage1Start : StreamEv
  | stage1Progress : Model → Bool → StreamEv
  | stage1Complete : StreamEv
  | stage2Start : StreamEv
  | stage2Progress : Model → Bool → StreamEv
  | stage2Complete : StreamEv
  | stage3Start : StreamEv
  | stage3Complete : StreamEv
  | titleComplete : StreamEv
  | completeEv : StreamEv
deriving DecidableEq, Repr

/-- Persistence calls the generator can make on the conversation store. -/
inductive StoreAct : Type
  | addUserMessage : StoreAct
  | updateTitle : StoreAct
  | addAssistantMessage : StoreAct
deriving DecidableEq, Repr

/-- Everything the outside world decides during one streamed turn: the
answer of `http_request.is_disconnected()` at the k-th
`ensure_client_connected` check, whether this is the first message of
the conversation, and the completion-order outcomes the two engine runs
deliver to the stage progress callbacks (`true` = the model produced a
response). -/
structure StreamWorld : Type where
  disconnected : Nat → Bool
  isFirstMessage : Bool
  stage1Items : List (Model × Bool)
  stage2Items : List (Model × Bool)

/-- Running state of the generator: events yielded so far, persistence
actions performed so far, and the index of the next disconnect check. -/
structure GenState : Type where
  events : List StreamEv
  actions : List StoreAct
  chk : Nat

/-- Yield one SSE event. -/
def emitEv (s : GenState) (e : StreamEv) : GenState :=
  ⟨s.events ++ [e], s.actions, s.chk⟩

/-- Perform one persistence call. -/
def recordAct (s : GenState) (a : StoreAct) : GenState :=
  ⟨s.events, s.actions ++ [a], s.chk⟩

/-- Embedding of `ensure_client_connected` (backend/main.py, lines
193-196): consult the disconnect oracle at the current check index;
raise `CancelledError` (the `Except.error` branch, carrying the state at
that moment) when the client has disconnected. -/
def checkConnected (w : StreamWorld) (s : GenState) :
    Except GenState GenState :=
  if w.disconnected s.chk then Except.error ⟨s.events, s.actions, s.chk + 1⟩
  else Except.ok ⟨s.events, s.actions, s.chk + 1⟩

/-- One stage's progress relay (backend/main.py: the `stage1_progress` /
`stage2_progress` callbacks feeding the drain loops at lines 235-243 and
274-282): for each outcome delivered in completion order, the callback
first runs `ensure_client_connected`, then the event is put on the queue
and yielded. -/
def progressRelay (w : StreamWorld) (mk : Model → Bool → StreamEv) :
    List (Model × Bool) → GenState → Except GenState GenState
  | [], s => Except.ok s
  | it :: rest, s =>
    match checkConnected w s with
    | Except.error s2 => Except.error s2
    | Except.ok s2 => progressRelay w mk rest (emitEv s2 (mk it.1 it.2))

/-- Embedding of the body of `event_generator` (backend/main.py, lines
198-317), sequentialised: the stage tasks are abstracted into the
outcome lists the world supplies, and a propagating `CancelledError` is
the `Except.error` exit carrying what had been yielded and persisted up
to that point.  Control flow follows the source: initial connect check;
`add_user_message`; connect check; `stage1_start`; the stage-1 progress
relay; `stage1_complete`; connect check; `stage2_start`; the stage-2
relay; `stage2_complete`; connect check; `stage3_start`;
`stage3_complete`; on a first message `update_title` then
`title_complete`; connect check; `add_assistant_message`; `complete`. -/
def event_generator_run (w : StreamWorld) : Except GenState GenState := do
  let s0 : GenState := ⟨[], [], 0⟩
  let s ← checkConnected w s0
  let s := recordAct s StoreAct.addUserMessage
  let s ← checkConnected w s
  let s := emitEv s StreamEv.stage1Start
  let s ← progressRelay w (fun m ok => StreamEv.stage1Progress m ok) w.stage1Items s
  let s := emitEv s StreamEv.stage1Complete
  let s ← checkConnected w s
  let s := emitEv s StreamEv.stage2Start
  let s ← progressRelay w (fun m ok => StreamEv.stage2Progress m ok) w.stage2Items s
  let s := emitEv s StreamEv.stage2Complete
  let s ← checkConnected w s
  let s := emitEv s StreamEv.stage3Start
  let s := emitEv s StreamEv.stage3Complete
  let s :=
    if w.isFirstMessage then emitEv (recordAct s StoreAct.updateTitle) StreamEv.titleComplete
    else s
  let s ← checkConnected w s
  let s := recordAct s StoreAct.addAssistantMessage
  let s := emitEv s StreamEv.completeEv
  pure s

/-- Observable result of one streamed turn. -/
structure GenResult : Type where
  events : List StreamEv
  actions : List StoreAct
  cancelled : Bool
deriving DecidableEq, Repr

/-- Embedding of the full `event_generator` coroutine, including its
`except asyncio.CancelledError: return` handler (backend/main.py, lines
318-320): a propagating cancellation ends the stream quietly, with no
further events and no further persistence. -/
def event_generator (w : StreamWorld) : GenResult :=
  match event_generator_run w with
  | Except.ok s => ⟨s.events, s.actions, false⟩
  | Except.error s => ⟨s.events, s.actions, true⟩

/-- Totality of the code-point lexicographic order. -/
lemma charListLe_total : ∀ as bs, charListLe as bs = true ∨ charListLe bs as = true := by
  intro as
  induction as with
  | nil => intro bs; exact Or.inl rfl
  | cons a as ih =>
    intro bs
    cases bs with
    | nil => exact Or.inr rfl
    | cons b bs =>
      simp only [charListLe, Bool.or_eq_true, Bool.and_eq_true, decide_eq_true_eq,
        beq_iff_eq]
      rcases Nat.lt_trichotomy a.toNat b.toNat with h | h | h
      · exact Or.inl (Or.inl h)
      · rcases ih bs with h2 | h2
        · exact Or.inl (Or.inr ⟨h, h2⟩)
        · exact Or.inr (Or.inr ⟨h.symm, h2⟩)
      · exact Or.inr (Or.inl h)

/-- Transitivity of the code-point lexicographic order. -/
lemma charListLe_trans :
    ∀ as bs cs, charListLe as bs = true → charListLe bs cs = true →
      charListLe as cs = true := by
  intro as
  induction as with
  | nil => intro bs cs _ _; exact rfl
  | cons a as ih =>
    intro bs cs hab hbc
    cases bs with
    | nil => simp [charListLe] at hab
    | cons b bs =>
      cases cs with
      | nil => simp [charListLe] at hbc
      | cons c cs =>
        simp only [charListLe, Bool.or_eq_true, Bool.and_eq_true, decide_eq_true_eq,
          beq_iff_eq] at hab hbc ⊢
        rcases hab with hab | ⟨hab, hab2⟩ <;> rcases hbc with hbc | ⟨hbc, hbc2⟩
        · exact Or.inl (Nat.lt_trans hab hbc)
        · exact Or.inl (hbc ▸ hab)
        · exact Or.inl (hab ▸ hbc)
        · exact Or.inr ⟨hab.trans hbc, ih bs cs hab2 hbc2⟩

instance : IsTotal (String × Nat) aggRel where
  total := by
    intro a b
    simp only [aggRel, aggregateLe, Bool.or_eq_true, Bool.and_eq_true,
      decide_eq_true_eq, beq_iff_eq]
    rcases Nat.lt_trichotomy a.2 b.2 with h | h | h
    · exact Or.inr (Or.inl h)
    · rcases charListLe_total a.1.data b.1.data with h2 | h2
      · exact Or.inl (Or.inr ⟨h, h2⟩)
      · exact Or.inr (Or.inr ⟨h.symm, h2⟩)
    · exact Or.inl (Or.inl h)

instance : IsTrans (String × Nat) aggRel where
  trans := by
    intro a b c hab hbc
    simp only [aggRel, aggregateLe, Bool.or_eq_true, Bool.and_eq_true,
      decide_eq_true_eq, beq_iff_eq] at hab hbc ⊢
    rcases hab with hab | ⟨hab, hab2⟩ <;> rcases hbc with hbc | ⟨hbc, hbc2⟩
    · exact Or.inl (Nat.lt_trans hbc hab)
    · exact Or.inl (hbc ▸ hab)
    · exact Or.inl (hab ▸ hbc)
    · exact Or.inr ⟨hab.trans hbc, charListLe_trans _ _ _ hab2 hbc2⟩

/-! Helper lemmas shared by the claim theorems. -/

lemma exceptToNone_shape (b : PyResult (Option Resp)) :
    (∃ v, exceptToNone b = PyResult.val v) ∨
    exceptToNone b = PyResult.exn Exn.cancelled := by
  match b with
  | .val v => exact Or.inl ⟨v, rfl⟩
  | .exn .cancelled => exact Or.inr rfl
  | .exn (.error c) => exact Or.inl ⟨none, rfl⟩

lemma query_ramalama_shape (w : RamalamaWorld) (ms : List Json) :
    (∃ v, (query_ramalama w ms).2 = PyResult.val v) ∨
    (query_ramalama w ms).2 = PyResult.exn Exn.cancelled := by
  unfold query_ramalama
  cases hd : w.dockerAccess with
  | false => exact Or.inl ⟨none, by simp⟩
  | true =>
    simp only [if_true]
    rcases hr : run_sync w ms with ⟨tr, r⟩
    cases r with
    | val v => exact Or.inl ⟨some v, by simp⟩
    | exn e =>
      cases e with
      | cancelled => exact Or.inr (by simp)
      | error c => exact Or.inl ⟨none, by simp⟩

lemma query_ramalama_fst (w : RamalamaWorld) (ms : List Json)
    (hd : w.dockerAccess = true) :
    (query_ramalama w ms).1 = (run_sync w ms).1 := by
  unfold query_ramalama
  simp only [hd, if_true]
  rcases hr : run_sync w ms with ⟨tr, r⟩
  cases r with
  | val v => simp
  | exn e => cases e <;> simp

lemma run_sync_trace (w : RamalamaWorld) (ms : List Json) (lastMsg c : Json)
    (he : w.enter = PyResult.val ())
    (hc : lastMsg.index "content" = PyResult.val c) :
    (run_sync w (ms ++ [lastMsg])).1 = [RmEv.enter, RmEv.chat c ms, RmEv.exit] := by
  have hlast : pyLast (ms ++ [lastMsg]) = PyResult.val lastMsg := by
    simp [pyLast, List.getLast?_concat]
  unfold run_sync
  rw [he]
  simp only [hlast, hc, List.dropLast_concat]
  cases hcr : w.chatResult with
  | exn e => simp
  | val reply =>
    cases hg : reply.pyGet "content" with
    | exn e => simp [hg]
    | val cc => simp [hg]

/-- C5: for every behaviour of the external world, each backend client
(`query_openrouter`, `query_ollama`, `query_ramalama`) either returns a
value (a `Response` or `None`) or propagates only `asyncio.CancelledError`
— never an ordinary exception; moreover representative failures
(connection error on the POST, non-2xx status, missing docker socket,
runtime start failure) are all converted into a `None` return. -/
theorem backend_clients_never_raise :
    (∀ w : ORWorld,
      (∃ v, query_openrouter w = PyResult.val v) ∨
      query_openrouter w = PyResult.exn Exn.cancelled) ∧
    (∀ w : OllamaWorld,
      (∃ v, query_ollama w = PyResult.val v) ∨
      query_ollama w = PyResult.exn Exn.cancelled) ∧
    (∀ (w : RamalamaWorld) (messages : List Json),
      (∃ v, (query_ramalama w messages).2 = PyResult.val v) ∨
      (query_ramalama w messages).2 = PyResult.exn Exn.cancelled) ∧
    (∀ e, query_openrouter ⟨PyResult.exn (Exn.error e)⟩ = PyResult.val none) ∧
    (∀ st b, 400 ≤ st →
      query_openrouter ⟨PyResult.val ⟨st, b⟩⟩ = PyResult.val none) ∧
    (∀ (w : RamalamaWorld) (messages : List Json),
      w.dockerAccess = false → (query_ramalama w messages).2 = PyResult.val none) ∧
    (∀ (w : RamalamaWorld) (messages : List Json) e,
      w.dockerAccess = true → w.enter = PyResult.exn (Exn.error e) →
      (query_ramalama w messages).2 = PyResult.val none) := by
  refine ⟨?_, ?_, ?_, ?_, ?_, ?_, ?_⟩
  · intro w
    simp only [query_openrouter]
    exact exceptToNone_shape _
  · intro w
    cases hw : w.api_url with
    | none => exact Or.inl ⟨none, by simp [query_ollama, hw]⟩
    | some u =>
      simp only [query_ollama, hw]
      exact exceptToNone_shape _
  · intro w messages
    exact query_ramalama_shape w messages
  · intro e
    rfl
  · intro st b hst
    simp [query_openrouter, PyResult.bind, raise_for_status, exceptToNone, hst,
      Bind.bind]
  · intro w messages hd
    simp [query_ramalama, hd]
  · intro w messages e hd he
    simp [query_ramalama, hd, run_sync, he]

/-- C9: with docker access available and the runtime successfully
started, `query_ramalama` on a non-empty message list performs exactly
one chat turn — the new-turn text is the final message's `content` and
the history is exactly the prior messages in order — and the runtime's
context manager is exited (runtime released) before the function
returns on every path, including when the chat call raises (nothing
here constrains `w.chatResult`). -/
theorem query_ramalama_single_chat_turn (w : RamalamaWorld)
    (ms : List Json) (lastMsg c : Json)
    (hd : w.dockerAccess = true) (he : w.enter = PyResult.val ())
    (hc : lastMsg.index "content" = PyResult.val c) :
    (query_ramalama w (ms ++ [lastMsg])).1 =
      [RmEv.enter, RmEv.chat c ms, RmEv.exit] := by
  rw [query_ramalama_fst w (ms ++ [lastMsg]) hd]
  exact run_sync_trace w ms lastMsg c he hc

/-- Witness for C9 at a concrete input, exercising the exception path:
the chat call raises, and the trace still ends with the runtime exit. -/
theorem query_ramalama_single_chat_turn_witness :
    (RamalamaWorld.mk true (PyResult.val ()) (PyResult.exn (Exn.error 9))).dockerAccess
        = true ∧
    (RamalamaWorld.mk true (PyResult.val ()) (PyResult.exn (Exn.error 9))).enter
        = PyResult.val () ∧
    (Json.obj [("role", Json.str "user"), ("content", Json.str "ping")]).index
        "content" = PyResult.val (Json.str "ping") ∧
    (query_ramalama (RamalamaWorld.mk true (PyResult.val ()) (PyResult.exn (Exn.error 9)))
        ([Json.obj [("role", Json.str "user"), ("content", Json.str "hi")]] ++
          [Json.obj [("role", Json.str "user"), ("content", Json.str "ping")]])).1 =
      [RmEv.enter,
       RmEv.chat (Json.str "ping")
         [Json.obj [("role", Json.str "user"), ("content", Json.str "hi")]],
       RmEv.exit] :=
  ⟨rfl, rfl, rfl,
   query_ramalama_single_chat_turn _ _ _ _ rfl rfl rfl⟩

lemma find?_mapSet (d : RDict) (k : Model) (v : Option Resp) :
    (d.map (fun p => if p.1 == k then (k, v) else p)).find? (fun p => p.1 == k)
      = if d.any (fun p => p.1 == k) then some (k, v) else none := by
  induction d with
  | nil => rfl
  | cons p d ih =>
    rw [List.map_cons, List.any_cons]
    by_cases hp : p.1 = k
    · have h1 : (if p.1 == k then ((k, v) : Model × Option Resp) else p) = (k, v) := by
        rw [if_pos]; exact beq_iff_eq.mpr hp
      rw [h1, @List.find?_cons_of_pos (Model × Option Resp) (fun q => q.1 == k)
        ((k, v)) _ (beq_self_eq_true k)]
      have h2 : (p.1 == k) = true := beq_iff_eq.mpr hp
      rw [h2, Bool.true_or, if_pos rfl]
    · have hp2 : (p.1 == k) = false := beq_eq_false_iff_ne.mpr hp
      have h1 : (if p.1 == k then ((k, v) : Model × Option Resp) else p) = p := by
        rw [hp2]; rfl
      rw [h1, @List.find?_cons_of_neg (Model × Option Resp) (fun q => q.1 == k)
        p _ (by rw [show (fun (q : Model × Option Resp) => q.1 == k) p = (p.1 == k)
          from rfl, hp2]; exact Bool.false_ne_true), ih, hp2, Bool.false_or]

lemma find?_mapSet_other (d : RDict) (k : Model) (v : Option Resp) (a : Model)
    (ha : a ≠ k) :
    (d.map (fun p => if p.1 == k then (k, v) else p)).find? (fun p => p.1 == a)
      = d.find? (fun p => p.1 == a) := by
  have hka : (k == a) = false := beq_eq_false_iff_ne.mpr (Ne.symm ha)
  induction d with
  | nil => rfl
  | cons p d ih =>
    rw [List.map_cons]
    by_cases hp : p.1 = k
    · have h1 : (if p.1 == k then ((k, v) : Model × Option Resp) else p) = (k, v) := by
        rw [if_pos]; exact beq_iff_eq.mpr hp
      have hpa : (p.1 == a) = false := by rw [hp]; exact hka
      rw [h1, @List.find?_cons_of_neg (Model × Option Resp) (fun q => q.1 == a)
        ((k, v)) _ (by rw [show (fun (q : Model × Option Resp) => q.1 == a) ((k, v))
          = (k == a) from rfl, hka]; exact Bool.false_ne_true), ih,
        @List.find?_cons_of_neg (Model × Option Resp) (fun q => q.1 == a)
        p _ (by rw [show (fun (q : Model × Option Resp) => q.1 == a) p = (p.1 == a)
          from rfl, hpa]; exact Bool.false_ne_true)]
    · have hp2 : (p.1 == k) = false := beq_eq_false_iff_ne.mpr hp
      have h1 : (if p.1 == k then ((k, v) : Model × Option Resp) else p) = p := by
        rw [hp2]; rfl
      by_cases hpa : p.1 = a
      · rw [h1, @List.find?_cons_of_pos (Model × Option Resp) (fun q => q.1 == a)
          p _ (beq_iff_eq.mpr hpa),
          @List.find?_cons_of_pos (Model × Option Resp) (fun q => q.1 == a)
          p _ (beq_iff_eq.mpr hpa)]
      · have hpa2 : (p.1 == a) = false := beq_eq_false_iff_ne.mpr hpa
        rw [h1, @List.find?_cons_of_neg (Model × Option Resp) (fun q => q.1 == a)
          p _ (by rw [show (fun (q : Model × Option Resp) => q.1 == a) p = (p.1 == a)
            from rfl, hpa2]; exact Bool.false_ne_true), ih,
          @List.find?_cons_of_neg (Model × Option Resp) (fun q => q.1 == a)
          p _ (by rw [show (fun (q : Model × Option Resp) => q.1 == a) p = (p.1 == a)
            from rfl, hpa2]; exact Bool.false_ne_true)]

lemma dictGet_dictSet_self (d : RDict) (k : Model) (v : Option Resp) :
    dictGet (dictSet d k v) k = some v := by
  unfold dictGet dictSet
  by_cases h : d.any (fun p => p.1 == k) = true
  · rw [if_pos h, find?_mapSet, if_pos h]
    rfl
  · rw [if_neg h, List.find?_append]
    have hnone : d.find? (fun p => p.1 == k) = none := by
      rw [List.find?_eq_none]
      intro p hp hc
      exact h (List.any_eq_true.mpr ⟨p, hp, hc⟩)
    rw [hnone, Option.none_or, @List.find?_cons_of_pos (Model × Option Resp)
      (fun q => q.1 == k) ((k, v)) _ (beq_self_eq_true k)]
    rfl

lemma dictGet_dictSet_other (d : RDict) (k : Model) (v : Option Resp) (a : Model)
    (ha : a ≠ k) :
    dictGet (dictSet d k v) a = dictGet d a := by
  unfold dictGet dictSet
  by_cases h : d.any (fun p => p.1 == k) = true
  · rw [if_pos h, find?_mapSet_other d k v a ha]
  · rw [if_neg h, List.find?_append]
    have hka : (k == a) = false := beq_eq_false_iff_ne.mpr (Ne.symm ha)
    have h2 : List.find? (fun (q : Model × Option Resp) => q.1 == a) [(k, v)] = none := by
      rw [@List.find?_cons_of_neg (Model × Option Resp) (fun q => q.1 == a)
        ((k, v)) _ (by rw [show (fun (q : Model × Option Resp) => q.1 == a) ((k, v))
          = (k == a) from rfl, hka]; exact Bool.false_ne_true)]
      rfl
    rw [h2, Option.or_none]

lemma dictKeys_dictSet_mem (d : RDict) (k : Model) (v : Option Resp) (a : Model) :
    a ∈ dictKeys (dictSet d k v) ↔ a ∈ dictKeys d ∨ a = k := by
  unfold dictKeys dictSet
  by_cases h : d.any (fun p => p.1 == k) = true
  · have hkmem : k ∈ d.map (fun p => p.1) := by
      have h3 : ∃ p ∈ d, (p.1 == k) = true := List.any_eq_true.mp h
      rcases h3 with ⟨p, hp, hpk⟩
      exact (beq_iff_eq.mp hpk) ▸ List.mem_map_of_mem _ hp
    have hkeys : (d.map (fun p => if p.1 == k then (k, v) else p)).map (fun p => p.1)
        = d.map (fun p => p.1) := by
      rw [List.map_map]
      apply List.map_congr_left
      intro p _
      by_cases hp : p.1 = k
      · have h4 : (if p.1 == k then ((k, v) : Model × Option Resp) else p) = (k, v) := by
          rw [if_pos]; exact beq_iff_eq.mpr hp
        simp only [Function.comp_apply, h4]
        exact hp.symm
      · have hp2 : (p.1 == k) = false := beq_eq_false_iff_ne.mpr hp
        have h4 : (if p.1 == k then ((k, v) : Model × Option Resp) else p) = p := by
          rw [hp2]; rfl
        simp only [Function.comp_apply, h4]
    rw [if_pos h, hkeys]
    constructor
    · exact Or.inl
    · rintro (hm | rfl)
      · exact hm
      · exact hkmem
  · rw [if_neg h, List.map_append]
    simp

lemma foldl_dictSet_mem_keys (outcome : Model → QOutcome) :
    ∀ (l : List Model) (d : RDict) (a : Model),
      a ∈ dictKeys (l.foldl (fun acc m => dictSet acc m (outcome m).resp) d) ↔
        a ∈ dictKeys d ∨ a ∈ l := by
  intro l
  induction l with
  | nil => intro d a; simp
  | cons m l ih =>
    intro d a
    rw [List.foldl_cons, ih, dictKeys_dictSet_mem]
    constructor
    · rintro ((hd | rfl) | hl)
      · exact Or.inl hd
      · exact Or.inr (List.mem_cons_self _ _)
      · exact Or.inr (List.mem_cons_of_mem _ hl)
    · rintro (hd | hml)
      · exact Or.inl (Or.inl hd)
      · rcases List.mem_cons.mp hml with rfl | hl
        · exact Or.inl (Or.inr rfl)
        · exact Or.inr hl

lemma foldl_dictSet_get_notmem (outcome : Model → QOutcome) :
    ∀ (l : List Model) (d : RDict) (a : Model), a ∉ l →
      dictGet (l.foldl (fun acc m => dictSet acc m (outcome m).resp) d) a
        = dictGet d a := by
  intro l
  induction l with
  | nil => intro d a _; rfl
  | cons m l ih =>
    intro d a ha
    rw [List.foldl_cons, ih _ _ (fun h => ha (List.mem_cons_of_mem _ h)),
      dictGet_dictSet_other _ _ _ _
        (fun h => ha (by rw [h]; exact List.mem_cons_self _ _))]

lemma foldl_dictSet_get (outcome : Model → QOutcome) :
    ∀ (l : List Model) (d : RDict) (a : Model), a ∈ l → l.Nodup →
      dictGet (l.foldl (fun acc m => dictSet acc m (outcome m).resp) d) a
        = some (outcome a).resp := by
  intro l
  induction l with
  | nil => intro d a ha _; exact absurd ha (List.not_mem_nil a)
  | cons m l ih =>
    intro d a ha hnd
    rcases List.mem_cons.mp ha with rfl | hl
    · have hnotl : a ∉ l := (List.nodup_cons.mp hnd).1
      rw [List.foldl_cons, foldl_dictSet_get_notmem outcome l _ a hnotl,
        dictGet_dictSet_self]
    · exact List.foldl_cons _ _ ▸ ih _ a hl (List.nodup_cons.mp hnd).2

lemma run_and_tag_eq (outcome : Model → QOutcome) (m : Model) :
    run_and_tag outcome m = (m, (outcome m).resp,
      match outcome m with | .ok _ => none | .exn e => some e) := by
  cases h : outcome m <;> simp [run_and_tag, h, QOutcome.resp]

lemma drainLoop_none (outcome : Model → QOutcome) :
    ∀ (arrival : List Model) (d : RDict) (calls : List (Model × Option Resp))
      (tr : List EngEv),
      drainLoop outcome none arrival d calls tr =
        ⟨arrival.foldl (fun acc m => dictSet acc m (outcome m).resp) d, calls,
         tr ++ arrival.map (fun m => EngEv.recorded m (outcome m).resp), false, []⟩ := by
  intro arrival
  induction arrival with
  | nil => intro d calls tr; simp [drainLoop]
  | cons m l ih =>
    intro d calls tr
    rw [List.foldl_cons, List.map_cons]
    show drainLoop outcome none (m :: l) d calls tr = _
    rw [drainLoop, run_and_tag_eq]
    rw [ih]
    simp

lemma drainLoop_some_noCancel (outcome : Model → QOutcome)
    (f : Model → Option Resp → PBeh) (hf : ∀ m r, f m r ≠ PBeh.cancel) :
    ∀ (arrival : List Model) (d : RDict) (calls : List (Model × Option Resp))
      (tr : List EngEv),
      drainLoop outcome (some f) arrival d calls tr =
        ⟨arrival.foldl (fun acc m => dictSet acc m (outcome m).resp) d,
         calls ++ arrival.map (fun m => (m, (outcome m).resp)),
         tr ++ arrival.flatMap (fun m =>
           [EngEv.recorded m (outcome m).resp, EngEv.progressed m (outcome m).resp]),
         false, []⟩ := by
  intro arrival
  induction arrival with
  | nil => intro d calls tr; simp [drainLoop]
  | cons m l ih =>
    intro d calls tr
    rw [List.foldl_cons, List.map_cons, List.flatMap_cons]
    show drainLoop outcome (some f) (m :: l) d calls tr = _
    rw [drainLoop, run_and_tag_eq]
    simp only
    cases hfm : f m (outcome m).resp with
    | cancel => exact absurd hfm (hf m (outcome m).resp)
    | ok =>
      rw [ih]
      simp
    | exn c =>
      rw [ih]
      simp

lemma drainLoop_cancel (outcome : Model → QOutcome)
    (f : Model → Option Resp → PBeh) :
    ∀ (pre : List Model) (mc : Model) (post : List Model) (d : RDict)
      (calls : List (Model × Option Resp)) (tr : List EngEv),
      (∀ m ∈ pre, f m (outcome m).resp ≠ PBeh.cancel) →
      f mc (outcome mc).resp = PBeh.cancel →
      drainLoop outcome (some f) (pre ++ mc :: post) d calls tr =
        ⟨(pre ++ [mc]).foldl (fun acc m => dictSet acc m (outcome m).resp) d,
         calls ++ (pre ++ [mc]).map (fun m => (m, (outcome m).resp)),
         tr ++ (pre ++ [mc]).flatMap (fun m =>
           [EngEv.recorded m (outcome m).resp, EngEv.progressed m (outcome m).resp]),
         true, post⟩ := by
  intro pre
  induction pre with
  | nil =>
    intro mc post d calls tr _ hc
    rw [List.nil_append]
    show drainLoop outcome (some f) (mc :: post) d calls tr = _
    rw [drainLoop, run_and_tag_eq]
    simp only
    rw [hc]
    simp
  | cons m pre ih =>
    intro mc post d calls tr hpre hc
    rw [List.cons_append]
    show drainLoop outcome (some f) (m :: (pre ++ mc :: post)) d calls tr = _
    rw [drainLoop, run_and_tag_eq]
    simp only
    cases hfm : f m (outcome m).resp with
    | cancel => exact absurd hfm (hpre m (List.mem_cons_self _ _))
    | ok =>
      rw [ih mc post _ _ _ (fun x hx => hpre x (List.mem_cons_of_mem _ hx)) hc]
      simp
    | exn c =>
      rw [ih mc post _ _ _ (fun x hx => hpre x (List.mem_cons_of_mem _ hx)) hc]
      simp

lemma validArrival_take (models arrival : List Model)
    (hva : ValidArrival models arrival) :
    arrival.take models.length = arrival := by
  rw [← hva.1.length_eq]
  exact List.take_length arrival

lemma validArrival_nodup (models arrival : List Model) (hnodup : models.Nodup)
    (hva : ValidArrival models arrival) : arrival.Nodup :=
  hva.1.nodup_iff.mpr hnodup

lemma pair_trace_progress_after_record (outcome : Model → QOutcome) :
    ∀ (l : List Model) (i : Nat) (m : Model) (r : Option Resp),
      (l.flatMap (fun x =>
        [EngEv.recorded x (outcome x).resp, EngEv.progressed x (outcome x).resp]))[i]?
          = some (EngEv.progressed m r) →
      ∃ j, j < i ∧
        (l.flatMap (fun x =>
          [EngEv.recorded x (outcome x).resp,
           EngEv.progressed x (outcome x).resp]))[j]? = some (EngEv.recorded m r) := by
  intro l
  induction l with
  | nil => intro i m r h; simp at h
  | cons a l ih =>
    intro i m r h
    rw [List.flatMap_cons, List.cons_append, List.cons_append, List.nil_append] at h ⊢
    match i with
    | 0 =>
      rw [List.getElem?_cons_zero] at h
      simp at h
    | 1 =>
      rw [List.getElem?_cons_succ, List.getElem?_cons_zero] at h
      have h2 := Option.some.inj h
      cases h2
      exact ⟨0, Nat.zero_lt_one, by rw [List.getElem?_cons_zero]⟩
    | Nat.succ (Nat.succ n) =>
      rw [List.getElem?_cons_succ, List.getElem?_cons_succ] at h
      rcases ih n m r h with ⟨j, hj, hjel⟩
      refine ⟨j + 2, by omega, ?_⟩
      rw [List.getElem?_cons_succ, List.getElem?_cons_succ]
      exact hjel

/-- C1: for a non-empty list of distinct models, `query_models_parallel`
(run over any schedulable arrival order, with a progress callback that
never raises `CancelledError`) returns normally with a result map whose
key set is exactly the input model set, each model mapped to its
client's response (`None` when the query failed). -/
theorem engine_result_map_complete (models : List Model)
    (outcome : Model → QOutcome)
    (progress : Option (Model → Option Resp → PBeh)) (arrival : List Model)
    (hne : models ≠ []) (hnodup : models.Nodup)
    (hva : ValidArrival models arrival) (hnc : NoCancelProg progress) :
    (query_models_parallel models outcome progress arrival).cancelled = false ∧
    (∀ m, m ∈ dictKeys (query_models_parallel models outcome progress arrival).responses
        ↔ m ∈ models) ∧
    (∀ m ∈ models,
      dictGet (query_models_parallel models outcome progress arrival).responses m
        = some (outcome m).resp) := by
  have htake := validArrival_take models arrival hva
  have hand : arrival.Nodup := validArrival_nodup models arrival hnodup hva
  have hcore : ∀ run : EngineRun,
      run.responses = arrival.foldl (fun acc m => dictSet acc m (outcome m).resp) [] →
      run.cancelled = false →
      run.cancelled = false ∧
      (∀ m, m ∈ dictKeys run.responses ↔ m ∈ models) ∧
      (∀ m ∈ models, dictGet run.responses m = some (outcome m).resp) := by
    intro run hresp hcan
    refine ⟨hcan, ?_, ?_⟩
    · intro m
      rw [hresp, foldl_dictSet_mem_keys]
      simp only [dictKeys, List.map_nil, List.not_mem_nil, false_or]
      exact hva.1.mem_iff
    · intro m hm
      rw [hresp]
      exact foldl_dictSet_get outcome arrival [] m (hva.1.mem_iff.mpr hm) hand
  unfold query_models_parallel
  rw [htake]
  cases progress with
  | none => exact hcore _ (by rw [drainLoop_none]) (by rw [drainLoop_none])
  | some f =>
    have hf : ∀ m r, f m r ≠ PBeh.cancel := hnc f rfl
    exact hcore _ (by rw [drainLoop_some_noCancel outcome f hf])
      (by rw [drainLoop_some_noCancel outcome f hf])

/-- Witness for C1 at a concrete input: two distinct models, identity
arrival order, no progress callback. -/
theorem engine_result_map_complete_witness :
    (["ollama/a", "remote-b"] : List Model) ≠ [] ∧
    (["ollama/a", "remote-b"] : List Model).Nodup ∧
    ValidArrival ["ollama/a", "remote-b"] ["remote-b", "ollama/a"] ∧
    NoCancelProg none ∧
    ((query_models_parallel ["ollama/a", "remote-b"] (fun _ => QOutcome.ok none)
        none ["remote-b", "ollama/a"]).cancelled = false ∧
     (∀ m, m ∈ dictKeys (query_models_parallel ["ollama/a", "remote-b"]
          (fun _ => QOutcome.ok none) none ["remote-b", "ollama/a"]).responses
        ↔ m ∈ (["ollama/a", "remote-b"] : List Model)) ∧
     (∀ m ∈ (["ollama/a", "remote-b"] : List Model),
       dictGet (query_models_parallel ["ollama/a", "remote-b"]
          (fun _ => QOutcome.ok none) none ["remote-b", "ollama/a"]).responses m
         = some (QOutcome.ok none).resp)) := by
  have h1 : (["ollama/a", "remote-b"] : List Model) ≠ [] := by decide
  have h2 : (["ollama/a", "remote-b"] : List Model).Nodup := by decide
  have h3 : ValidArrival ["ollama/a", "remote-b"] ["remote-b", "ollama/a"] :=
    ⟨by decide, by decide⟩
  have h4 : NoCancelProg none := fun f h => nomatch h
  exact ⟨h1, h2, h3, h4, engine_result_map_complete _ _ _ _ h1 h2 h3 h4⟩

/-- C2: with a supplied progress callback that never raises
`CancelledError`, the engine invokes it exactly once per model (the
calls' model list is a permutation of the input, each model counted
once), every invocation happens after that model's outcome was recorded
in the result map (each `progressed` trace event is preceded by the
matching `recorded` event), and all invocations are complete when the
function returns (one call per input model is in the returned log). -/
theorem engine_progress_exactly_once (models : List Model)
    (outcome : Model → QOutcome) (f : Model → Option Resp → PBeh)
    (arrival : List Model)
    (hne : models ≠ []) (hnodup : models.Nodup)
    (hva : ValidArrival models arrival) (hf : ∀ m r, f m r ≠ PBeh.cancel) :
    (((query_models_parallel models outcome (some f) arrival).calls.map
        (fun c => c.1)).Perm models) ∧
    (∀ m ∈ models,
      ((query_models_parallel models outcome (some f) arrival).calls.map
        (fun c => c.1)).count m = 1) ∧
    ((query_models_parallel models outcome (some f) arrival).calls.length
        = models.length) ∧
    (∀ (i : Nat) (m : Model) (r : Option Resp),
      (query_models_parallel models outcome (some f) arrival).trace[i]?
          = some (EngEv.progressed m r) →
      ∃ j, j < i ∧
        (query_models_parallel models outcome (some f) arrival).trace[j]?
          = some (EngEv.recorded m r)) := by
  have htake := validArrival_take models arrival hva
  have hand : arrival.Nodup := validArrival_nodup models arrival hnodup hva
  have hcalls : (query_models_parallel models outcome (some f) arrival).calls
      = arrival.map (fun m => (m, (outcome m).resp)) := by
    unfold query_models_parallel
    rw [htake, drainLoop_some_noCancel outcome f hf]
    simp
  have htrace : (query_models_parallel models outcome (some f) arrival).trace
      = arrival.flatMap (fun m => [EngEv.recorded m (outcome m).resp,
        EngEv.progressed m (outcome m).resp]) := by
    unfold query_models_parallel
    rw [htake, drainLoop_some_noCancel outcome f hf]
    simp
  have hmapfst : (arrival.map (fun m => (m, (outcome m).resp))).map (fun c => c.1)
      = arrival := by
    rw [List.map_map,
      show ((fun (c : Model × Option Resp) => c.1) ∘ fun m => (m, (outcome m).resp))
        = fun m => m from rfl]
    exact List.map_id' arrival
  refine ⟨?_, ?_, ?_, ?_⟩
  · rw [hcalls, hmapfst]
    exact hva.1
  · intro m hm
    rw [hcalls, hmapfst]
    exact List.count_eq_one_of_mem hand (hva.1.mem_iff.mpr hm)
  · rw [hcalls, List.length_map, hva.1.length_eq]
  · intro i m r h
    rw [htrace] at h
    simp only [htrace]
    exact pair_trace_progress_after_record outcome arrival i m r h

/-- Witness for C2 at a concrete input: one local and one remote model,
arrival in completion order, an always-returning callback. -/
theorem engine_progress_exactly_once_witness :
    (["m1", "local/x"] : List Model) ≠ [] ∧
    (["m1", "local/x"] : List Model).Nodup ∧
    ValidArrival ["m1", "local/x"] ["local/x", "m1"] ∧
    (((query_models_parallel ["m1", "local/x"] (fun _ => QOutcome.ok none)
        (some (fun _ _ => PBeh.ok)) ["local/x", "m1"]).calls.map
        (fun c => c.1)).Perm ["m1", "local/x"]) := by
  have h1 : (["m1", "local/x"] : List Model) ≠ [] := by decide
  have h2 : (["m1", "local/x"] : List Model).Nodup := by decide
  have h3 : ValidArrival ["m1", "local/x"] ["local/x", "m1"] := ⟨by decide, by decide⟩
  have h4 : ∀ (m : Model) (r : Option Resp), (fun _ _ => PBeh.ok) m r ≠ PBeh.cancel :=
    fun m r hc => nomatch hc
  exact ⟨h1, h2, h3,
    (engine_progress_exactly_once _ (fun _ => QOutcome.ok none) _ _ h1 h2 h3 h4).1⟩

/-- C4: a failing model (query raised, or its client returned `None`)
does not prevent the other models' outcomes from being collected (the
key set is still the full input set) or reported (the callback is still
invoked once per model); the failing model itself is mapped to `None`. -/
theorem engine_failure_isolated (models : List Model)
    (outcome : Model → QOutcome)
    (progress : Option (Model → Option Resp → PBeh)) (arrival : List Model)
    (m0 : Model) (hnodup : models.Nodup) (hva : ValidArrival models arrival)
    (hnc : NoCancelProg progress) (hm0 : m0 ∈ models)
    (hfail : (∃ e, outcome m0 = QOutcome.exn e) ∨ outcome m0 = QOutcome.ok none) :
    (∀ m, m ∈ dictKeys (query_models_parallel models outcome progress arrival).responses
        ↔ m ∈ models) ∧
    dictGet (query_models_parallel models outcome progress arrival).responses m0
        = some none ∧
    (∀ f, progress = some f →
      ((query_models_parallel models outcome progress arrival).calls.map
        (fun c => c.1)).Perm models) := by
  have htake := validArrival_take models arrival hva
  have hand : arrival.Nodup := validArrival_nodup models arrival hnodup hva
  have hresp0 : (outcome m0).resp = none := by
    rcases hfail with ⟨e, he⟩ | he
    · rw [he]; rfl
    · rw [he]; rfl
  have hm0a : m0 ∈ arrival := hva.1.mem_iff.mpr hm0
  unfold query_models_parallel
  rw [htake]
  cases progress with
  | none =>
    rw [drainLoop_none]
    refine ⟨?_, ?_, ?_⟩
    · intro m
      rw [foldl_dictSet_mem_keys]
      simp only [dictKeys, List.map_nil, List.not_mem_nil, false_or]
      exact hva.1.mem_iff
    · rw [foldl_dictSet_get outcome arrival [] m0 hm0a hand, hresp0]
    · intro f h
      exact absurd h (by simp)
  | some f =>
    have hf : ∀ m r, f m r ≠ PBeh.cancel := hnc f rfl
    rw [drainLoop_some_noCancel outcome f hf]
    refine ⟨?_, ?_, ?_⟩
    · intro m
      rw [foldl_dictSet_mem_keys]
      simp only [dictKeys, List.map_nil, List.not_mem_nil, false_or]
      exact hva.1.mem_iff
    · rw [foldl_dictSet_get outcome arrival [] m0 hm0a hand, hresp0]
    · intro g hg
      simp only [List.nil_append]
      rw [List.map_map]
      rw [show ((fun c => c.1) ∘ fun m => ((m, (outcome m).resp) : Model × Option Resp))
        = id from rfl, List.map_id]
      exact hva.1

/-- Witness for C4 at a concrete input: model `bad` raises, model `good`
succeeds; both are in the result map, `bad` mapped to `None`. -/
theorem engine_failure_isolated_witness :
    (["bad", "good"] : List Model).Nodup ∧
    ValidArrival ["bad", "good"] ["good", "bad"] ∧
    ("bad" : Model) ∈ (["bad", "good"] : List Model) ∧
    ((fun m => if m == "bad" then QOutcome.exn 7
        else QOutcome.ok (some ⟨Json.str "ok", Json.null⟩)) ("bad" : Model)
      = QOutcome.exn 7) ∧
    ((∀ m, m ∈ dictKeys (query_models_parallel ["bad", "good"]
        (fun m => if m == "bad" then QOutcome.exn 7
          else QOutcome.ok (some ⟨Json.str "ok", Json.null⟩))
        none ["good", "bad"]).responses ↔ m ∈ (["bad", "good"] : List Model)) ∧
     dictGet (query_models_parallel ["bad", "good"]
        (fun m => if m == "bad" then QOutcome.exn 7
          else QOutcome.ok (some ⟨Json.str "ok", Json.null⟩))
        none ["good", "bad"]).responses "bad" = some none) := by
  have h2 : (["bad", "good"] : List Model).Nodup := by decide
  have h3 : ValidArrival ["bad", "good"] ["good", "bad"] := ⟨by decide, by decide⟩
  have h4 : NoCancelProg none := fun f h => nomatch h
  have h5 : ("bad" : Model) ∈ (["bad", "good"] : List Model) := by decide
  have h6 : (∃ e, (fun m => if m == "bad" then QOutcome.exn 7
      else QOutcome.ok (some ⟨Json.str "ok", Json.null⟩)) ("bad" : Model)
        = QOutcome.exn e) ∨
      (fun m => if m == "bad" then QOutcome.exn 7
        else QOutcome.ok (some ⟨Json.str "ok", Json.null⟩)) ("bad" : Model)
        = QOutcome.ok none := Or.inl ⟨7, rfl⟩
  have hmain := engine_failure_isolated ["bad", "good"]
    (fun m => if m == "bad" then QOutcome.exn 7
      else QOutcome.ok (some ⟨Json.str "ok", Json.null⟩))
    none ["good", "bad"] "bad" h2 h3 h4 h5 h6
  exact ⟨h2, h3, h5, rfl, hmain.1, hmain.2.1⟩

/-- C7: an ordinary exception raised by `on_progress` is swallowed — the
engine still completes normally, collects every model's outcome and
delivers one call per model (first conjunct, which allows the callback
to raise `PBeh.exn` anywhere); a `CancelledError` raised by
`on_progress` propagates out — the run ends cancelled, the models after
the cancellation point are never drained and are exactly the ones whose
producer tasks the engine cancels before re-raising (second conjunct). -/
theorem engine_on_progress_exception_policy (outcome : Model → QOutcome)
    (f : Model → Option Resp → PBeh) :
    (∀ (models arrival : List Model), models.Nodup → ValidArrival models arrival →
      (∀ m r, f m r ≠ PBeh.cancel) →
      ((query_models_parallel models outcome (some f) arrival).cancelled = false ∧
       (∀ m, m ∈ dictKeys
          (query_models_parallel models outcome (some f) arrival).responses
            ↔ m ∈ models) ∧
       (query_models_parallel models outcome (some f) arrival).calls.length
            = models.length)) ∧
    (∀ (models arrival pre post : List Model) (mc : Model),
      ValidArrival models arrival →
      arrival = pre ++ mc :: post →
      (∀ m ∈ pre, f m (outcome m).resp ≠ PBeh.cancel) →
      f mc (outcome mc).resp = PBeh.cancel →
      ((query_models_parallel models outcome (some f) arrival).cancelled = true ∧
       (query_models_parallel models outcome (some f) arrival).pendingCancelled
          = post ∧
       (query_models_parallel models outcome (some f) arrival).calls.map
          (fun c => c.1) = pre ++ [mc])) := by
  constructor
  · intro models arrival hnodup hva hf
    have htake := validArrival_take models arrival hva
    have hand : arrival.Nodup := validArrival_nodup models arrival hnodup hva
    unfold query_models_parallel
    rw [htake, drainLoop_some_noCancel outcome f hf]
    refine ⟨rfl, ?_, ?_⟩
    · intro m
      simp only
      rw [foldl_dictSet_mem_keys]
      simp only [dictKeys, List.map_nil, List.not_mem_nil, false_or]
      exact hva.1.mem_iff
    · simp only [List.nil_append, List.length_map]
      exact hva.1.length_eq
  · intro models arrival pre post mc hva harr hpre hcancel
    have htake := validArrival_take models arrival hva
    unfold query_models_parallel
    rw [htake, harr, drainLoop_cancel outcome f pre mc post [] [] [] hpre hcancel]
    refine ⟨rfl, rfl, ?_⟩
    simp only [List.nil_append]
    rw [List.map_map,
      show ((fun (c : Model × Option Resp) => c.1) ∘ fun m => (m, (outcome m).resp))
        = fun m => m from rfl]
    exact List.map_id' (pre ++ [mc])

/-- Witness for C7 at a concrete input, exercising the cancellation arm:
the callback cancels on model `c`; model `b`, still pending, is
cancelled and never delivered. -/
theorem engine_on_progress_exception_policy_witness :
    ValidArrival ["a", "c", "b"] ["a", "c", "b"] ∧
    (["a", "c", "b"] : List Model) = ["a"] ++ "c" :: ["b"] ∧
    (∀ m ∈ (["a"] : List Model),
      (fun (m : Model) (_ : Option Resp) => if m == "c" then PBeh.cancel else PBeh.ok)
        m ((fun _ => QOutcome.ok none) m).resp ≠ PBeh.cancel) ∧
    ((fun (m : Model) (_ : Option Resp) => if m == "c" then PBeh.cancel else PBeh.ok)
      "c" ((fun _ => QOutcome.ok none) "c").resp = PBeh.cancel) ∧
    ((query_models_parallel ["a", "c", "b"] (fun _ => QOutcome.ok none)
        (some (fun (m : Model) (_ : Option Resp) =>
          if m == "c" then PBeh.cancel else PBeh.ok))
        ["a", "c", "b"]).cancelled = true ∧
     (query_models_parallel ["a", "c", "b"] (fun _ => QOutcome.ok none)
        (some (fun (m : Model) (_ : Option Resp) =>
          if m == "c" then PBeh.cancel else PBeh.ok))
        ["a", "c", "b"]).pendingCancelled = ["b"] ∧
     (query_models_parallel ["a", "c", "b"] (fun _ => QOutcome.ok none)
        (some (fun (m : Model) (_ : Option Resp) =>
          if m == "c" then PBeh.cancel else PBeh.ok))
        ["a", "c", "b"]).calls.map (fun c => c.1) = ["a"] ++ ["c"]) := by
  have h1 : ValidArrival ["a", "c", "b"] ["a", "c", "b"] := ⟨by decide, by decide⟩
  have h2 : (["a", "c", "b"] : List Model) = ["a"] ++ "c" :: ["b"] := by decide
  have h3 : ∀ m ∈ (["a"] : List Model),
      (fun (m : Model) (_ : Option Resp) => if m == "c" then PBeh.cancel else PBeh.ok)
        m ((fun _ => QOutcome.ok none) m).resp ≠ PBeh.cancel := by decide
  have h4 : (fun (m : Model) (_ : Option Resp) =>
      if m == "c" then PBeh.cancel else PBeh.ok)
      "c" ((fun _ => QOutcome.ok none) "c").resp = PBeh.cancel := by decide
  exact ⟨h1, h2, h3, h4,
    (engine_on_progress_exception_policy (fun _ => QOutcome.ok none)
      (fun (m : Model) (_ : Option Resp) =>
        if m == "c" then PBeh.cancel else PBeh.ok)).2
      ["a", "c", "b"] ["a", "c", "b"] ["a"] ["b"] "c" h1 h2 h3 h4⟩

/-- C10: for an empty model list, `query_models_parallel` returns an
empty result map, makes no progress calls, records no events and does
not cancel — for any outcome function, progress callback and arrival
order. -/
theorem engine_empty_models (outcome : Model → QOutcome)
    (progress : Option (Model → Option Resp → PBeh)) (arrival : List Model) :
    query_models_parallel [] outcome progress arrival =
      ⟨[], [], [], false, []⟩ := by
  unfold query_models_parallel
  rw [List.length_nil, List.take_zero]
  rfl

/-- Witness for C5 at a concrete input: a 503 status is converted into a
`None` return rather than an exception. -/
theorem backend_clients_never_raise_witness :
    400 ≤ 503 ∧
    query_openrouter ⟨PyResult.val ⟨503, PyResult.val Json.null⟩⟩
      = PyResult.val none :=
  ⟨by decide,
   backend_clients_never_raise.2.2.2.2.1 503 (PyResult.val Json.null) (by decide)⟩

lemma flatMap_queryEvents_model_mem (L : List Model) (e : TEv)
    (h : e ∈ L.flatMap queryEvents) : e.model ∈ L := by
  rcases List.mem_flatMap.mp h with ⟨m, hm, he⟩
  simp only [queryEvents, List.mem_cons, List.mem_singleton] at he
  rcases he with rfl | he
  · exact hm
  · rcases (by simpa using he : e = TEv.finish m) with rfl
    exact hm

lemma counts_zero_of_model_not_mem (L : List Model) (q : List TEv)
    (hsub : ∀ e ∈ q, e.model ∈ L) (m : Model) (hm : m ∉ L) :
    q.count (TEv.start m) = 0 ∧ q.count (TEv.finish m) = 0 := by
  constructor
  · rw [List.count_eq_zero]
    intro hc
    exact hm (hsub (TEv.start m) hc)
  · rw [List.count_eq_zero]
    intro hc
    exact hm (hsub (TEv.finish m) hc)

lemma inflight_prefix_le_one :
    ∀ (L : List Model), L.Nodup →
      ∀ q, q <+: L.flatMap queryEvents →
      (L.filter (fun m => inFlight q m)).length ≤ 1 := by
  intro L
  induction L with
  | nil => intro _ q _; simp
  | cons a L ih =>
    intro hnd q hq
    have hna : a ∉ L := (List.nodup_cons.mp hnd).1
    have hndL : L.Nodup := (List.nodup_cons.mp hnd).2
    rw [List.flatMap_cons] at hq
    have hq2 : q <+: TEv.start a :: TEv.finish a :: L.flatMap queryEvents := by
      simpa [queryEvents] using hq
    rcases q with _ | ⟨e0, q1⟩
    · simp [inFlight]
    · rcases List.cons_prefix_cons.mp hq2 with ⟨rfl, hq3⟩
      rcases q1 with _ | ⟨e1, q2⟩
      · -- q = [start a]
        have hfa : inFlight [TEv.start a] a = true := by
          rw [inFlight]
          have h1 : ([TEv.start a].count (TEv.start a)) = 1 := by
            rw [List.count_cons]
            simp
          have h2 : ([TEv.start a].count (TEv.finish a)) = 0 := by
            rw [List.count_eq_zero]
            intro hmem
            rcases List.mem_singleton.mp hmem with h
            exact TEv.noConfusion h
          rw [h1, h2]
          decide
        rw [List.filter_cons]
        have hLnil : L.filter (fun m => inFlight [TEv.start a] m) = [] := by
          rw [List.filter_eq_nil_iff]
          intro m hmL hflag
          have hne : a ≠ m := fun h => hna (h ▸ hmL)
          have : ([TEv.start a].count (TEv.start m)) = 0 := by
            rw [List.count_eq_zero]
            intro hmem
            have h := List.mem_singleton.mp hmem
            injection h with h5
            exact hne h5.symm
          rw [inFlight, this] at hflag
          simp at hflag
        rw [hfa, hLnil]
        simp
      · -- q = start a :: e1 :: q2 with e1 = finish a
        rcases List.cons_prefix_cons.mp hq3 with ⟨rfl, hq4⟩
        have hsub : ∀ e ∈ q2, e.model ∈ L := by
          intro e he
          exact flatMap_queryEvents_model_mem L e (hq4.subset he)
        have hcz := counts_zero_of_model_not_mem L q2 hsub a hna
        have hfa : inFlight (TEv.start a :: TEv.finish a :: q2) a = false := by
          rw [inFlight]
          rw [List.count_cons, List.count_cons, List.count_cons, List.count_cons,
            hcz.1, hcz.2]
          simp
        have hother : ∀ m ∈ L, inFlight (TEv.start a :: TEv.finish a :: q2) m
            = inFlight q2 m := by
          intro m hmL
          have hne : a ≠ m := fun h => hna (h ▸ hmL)
          have h1 : (TEv.start a == TEv.start m) = false := by
            rw [beq_eq_false_iff_ne]
            intro h
            exact hne (by injection h)
          have h2 : (TEv.finish a == TEv.start m) = false := by
            rw [beq_eq_false_iff_ne]
            intro h
            exact TEv.noConfusion h
          have h3 : (TEv.start a == TEv.finish m) = false := by
            rw [beq_eq_false_iff_ne]
            intro h
            exact TEv.noConfusion h
          have h4 : (TEv.finish a == TEv.finish m) = false := by
            rw [beq_eq_false_iff_ne]
            intro h
            exact hne (by injection h)
          rw [inFlight, inFlight, List.count_cons, List.count_cons, List.count_cons,
            List.count_cons, h1, h2, h3, h4]
          simp
        rw [List.filter_cons, hfa]
        simp only [Bool.false_eq_true, if_false]
        rw [List.filter_congr hother]
        exact ih hndL q2 hq4

lemma parallel_not_mem_local (models : List Model) (m : Model)
    (hm : m ∈ parallel_models models) : m ∉ local_models models := by
  rcases List.mem_filter.mp hm with ⟨_, hflag⟩
  intro hin
  have hc : (local_models models).contains m = true := List.elem_iff.mpr hin
  rw [hc] at hflag
  simp at hflag

lemma parallel_not_local (models : List Model) (m : Model)
    (hm : m ∈ parallel_models models) : isLocalModel m = false := by
  have hmem : m ∈ models := (List.mem_filter.mp hm).1
  have hnotin := parallel_not_mem_local models m hm
  cases h : isLocalModel m
  · rfl
  · exact absurd (List.mem_filter.mpr ⟨hmem, h⟩) hnotin

lemma filter_map_event_not_mem (g : Model → TEv) (hg : ∀ x, (g x).model = x) :
    ∀ (P : List Model) (m : Model), m ∉ P →
      (P.map g).filter (fun e => e.model == m) = [] := by
  intro P
  induction P with
  | nil => intro m _; rfl
  | cons a P ih =>
    intro m hm
    have hne : a ≠ m := fun h => hm (h ▸ List.mem_cons_self _ _)
    rw [List.map_cons, List.filter_cons]
    have hpr : ((g a).model == m) = false := by
      rw [hg a]
      exact beq_eq_false_iff_ne.mpr hne
    rw [hpr]
    simp only [Bool.false_eq_true, if_false]
    exact ih m (fun h => hm (List.mem_cons_of_mem _ h))

lemma filter_map_event_mem (g : Model → TEv) (hg : ∀ x, (g x).model = x) :
    ∀ (P : List Model) (m : Model), P.Nodup → m ∈ P →
      (P.map g).filter (fun e => e.model == m) = [g m] := by
  intro P
  induction P with
  | nil => intro m _ hm; exact absurd hm (List.not_mem_nil m)
  | cons a P ih =>
    intro m hnd hm
    rw [List.map_cons, List.filter_cons]
    rcases List.mem_cons.mp hm with rfl | hmP
    · have hpr : ((g m).model == m) = true := by rw [hg m]; exact beq_self_eq_true m
      rw [hpr]
      simp only [if_true]
      rw [filter_map_event_not_mem g hg P m (List.nodup_cons.mp hnd).1]
    · have hne : a ≠ m := fun h => (List.nodup_cons.mp hnd).1 (h ▸ hmP)
      have hpr : ((g a).model == m) = false := by
        rw [hg a]
        exact beq_eq_false_iff_ne.mpr hne
      rw [hpr]
      simp only [Bool.false_eq_true, if_false]
      exact ih m (List.nodup_cons.mp hnd).2 hmP

lemma count_start_map_start :
    ∀ (P : List Model) (m : Model),
      (P.map TEv.start).count (TEv.start m) = P.count m := by
  intro P
  induction P with
  | nil => intro m; rfl
  | cons a P ih =>
    intro m
    rw [List.map_cons, List.count_cons, List.count_cons, ih]
    have hbe : (TEv.start a == TEv.start m) = (a == m) := by
      cases h : (a == m)
      · rw [beq_eq_false_iff_ne]
        intro hc
        injection hc with hc2
        exact (beq_eq_false_iff_ne.mp h) hc2
      · have : a = m := beq_iff_eq.mp h
        rw [this]
        exact beq_self_eq_true _
    rw [hbe]

lemma count_finish_map_start :
    ∀ (P : List Model) (m : Model),
      (P.map TEv.start).count (TEv.finish m) = 0 := by
  intro P m
  rw [List.count_eq_zero]
  intro hc
  rcases List.mem_map.mp hc with ⟨x, _, hx⟩
  exact TEv.noConfusion hx

lemma localLaneProgram_all_local (models : List Model) (e : TEv)
    (he : e ∈ localLaneProgram models) : isLocalModel e.model = true := by
  have hmem := flatMap_queryEvents_model_mem (local_models models) e he
  exact (List.mem_filter.mp hmem).2

/-- C3: in every execution trace the task structure of
`query_models_parallel` can produce, at most one local-managed model is
in flight at any instant — the single sequential local lane runs their
execution intervals back to back — while all the parallel-lane models
can simultaneously be in flight in some valid trace (unbounded
parallelism). -/
theorem local_models_never_overlap (models : List Model) (hnodup : models.Nodup) :
    (∀ (tr : List TEv), ValidTrace models tr →
      ∀ (p : List TEv), p <+: tr → localInFlight models p ≤ 1) ∧
    (∃ (tr : List TEv), ValidTrace models tr ∧ ∃ (p : List TEv), p <+: tr ∧
      ∀ m ∈ parallel_models models, inFlight p m = true) := by
  constructor
  · intro tr hvt p hp
    have hq : p.filter (fun e => isLocalModel e.model) <+: localLaneProgram models := by
      have h2 := List.IsPrefix.filter (fun e => isLocalModel e.model) hp
      rw [hvt.1] at h2
      exact h2
    have hnodupL : (local_models models).Nodup := hnodup.filter _
    have hcong : ∀ m ∈ local_models models,
        inFlight p m = inFlight (p.filter (fun e => isLocalModel e.model)) m := by
      intro m hm
      have hloc : isLocalModel m = true := (List.mem_filter.mp hm).2
      have hcs : (p.filter (fun e => isLocalModel e.model)).count (TEv.start m)
          = p.count (TEv.start m) := List.count_filter hloc
      have hcf : (p.filter (fun e => isLocalModel e.model)).count (TEv.finish m)
          = p.count (TEv.finish m) := List.count_filter hloc
      rw [inFlight, inFlight, hcs, hcf]
    unfold localInFlight
    rw [List.filter_congr hcong]
    exact inflight_prefix_le_one (local_models models) hnodupL _ hq
  · have hPnodup : (parallel_models models).Nodup := hnodup.filter _
    refine ⟨(parallel_models models).map TEv.start ++
        ((parallel_models models).map TEv.finish ++ localLaneProgram models),
      ⟨?_, ?_⟩, (parallel_models models).map TEv.start, List.prefix_append _ _, ?_⟩
    · rw [List.filter_append, List.filter_append]
      have h1 : ((parallel_models models).map TEv.start).filter
          (fun e => isLocalModel e.model) = [] := by
        rw [List.filter_eq_nil_iff]
        intro e he
        rcases List.mem_map.mp he with ⟨x, hx, rfl⟩
        rw [show (TEv.start x).model = x from rfl, parallel_not_local models x hx]
        exact Bool.false_ne_true
      have h2 : ((parallel_models models).map TEv.finish).filter
          (fun e => isLocalModel e.model) = [] := by
        rw [List.filter_eq_nil_iff]
        intro e he
        rcases List.mem_map.mp he with ⟨x, hx, rfl⟩
        rw [show (TEv.finish x).model = x from rfl, parallel_not_local models x hx]
        exact Bool.false_ne_true
      have h3 : (localLaneProgram models).filter (fun e => isLocalModel e.model)
          = localLaneProgram models := by
        rw [List.filter_eq_self]
        exact localLaneProgram_all_local models
      rw [h1, h2, h3, List.nil_append, List.nil_append]
    · intro m hm
      rw [List.filter_append, List.filter_append,
        filter_map_event_mem TEv.start (fun x => rfl) _ m hPnodup hm,
        filter_map_event_mem TEv.finish (fun x => rfl) _ m hPnodup hm]
      have h3 : (localLaneProgram models).filter (fun e => e.model == m) = [] := by
        rw [List.filter_eq_nil_iff]
        intro e he
        have hloc := flatMap_queryEvents_model_mem (local_models models) e he
        have hne : e.model ≠ m := by
          intro hc
          exact parallel_not_mem_local models m hm (hc ▸ hloc)
        rw [beq_eq_false_iff_ne.mpr hne]
        exact Bool.false_ne_true
      rw [h3]
      rfl
    · intro m hm
      rw [inFlight, count_start_map_start, count_finish_map_start]
      exact decide_eq_true (List.count_pos_iff.mpr hm)

/-- Witness for C3 at a concrete input: two local models and one remote
model. -/
theorem local_models_never_overlap_witness :
    (["local/a", "local/b", "r1"] : List Model).Nodup ∧
    ((∀ (tr : List TEv), ValidTrace ["local/a", "local/b", "r1"] tr →
      ∀ (p : List TEv), p <+: tr → localInFlight ["local/a", "local/b", "r1"] p ≤ 1) ∧
     (∃ (tr : List TEv), ValidTrace ["local/a", "local/b", "r1"] tr ∧
      ∃ (p : List TEv), p <+: tr ∧
        ∀ m ∈ parallel_models ["local/a", "local/b", "r1"], inFlight p m = true)) :=
  ⟨by decide, local_models_never_overlap ["local/a", "local/b", "r1"] (by decide)⟩

/-- C6: rank aggregation (spec-modelled `calculate_aggregate_rankings`)
awards `n - p` points for the label at 0-indexed position `p` of a
ranking of `n` labels, sums across ranking models, and sorts by total
score descending with ties broken by ascending model identifier: on the
claim's example — rankings `["A","B","C"]` and `["B","A","C"]` over 3
labels — the scores are A=5, B=5, C=2 (first conjunct); in general the
output is sorted by the aggregate order (second conjunct) and every
output entry carries exactly its model's total score (third conjunct). -/
theorem calculate_aggregate_rankings_borda :
    (calculate_aggregate_rankings [["A", "B", "C"], ["B", "A", "C"]]
        [("A", "mA"), ("B", "mB"), ("C", "mC")]
      = [("mA", 5), ("mB", 5), ("mC", 2)]) ∧
    (∀ (parsed : List (List String)) (ltm : List (String × String)),
      List.Sorted aggRel (calculate_aggregate_rankings parsed ltm)) ∧
    (∀ (parsed : List (List String)) (ltm : List (String × String))
        (p : String × Nat), p ∈ calculate_aggregate_rankings parsed ltm →
      p.2 = totalScore parsed ltm p.1) := by
  refine ⟨by decide, ?_, ?_⟩
  · intro parsed ltm
    exact List.sorted_insertionSort aggRel _
  · intro parsed ltm p hp
    unfold calculate_aggregate_rankings at hp
    have hmem := (List.mem_insertionSort aggRel).mp hp
    rcases List.mem_map.mp hmem with ⟨m, _, rfl⟩
    rfl

/-- Witness for C6 at a concrete input: the top entry of the example
aggregate carries the total score of its model. -/
theorem calculate_aggregate_rankings_borda_witness :
    ((("mA", 5) : String × Nat) ∈ calculate_aggregate_rankings
        [["A", "B", "C"], ["B", "A", "C"]]
        [("A", "mA"), ("B", "mB"), ("C", "mC")]) ∧
    ((("mA", 5) : String × Nat).2 = totalScore [["A", "B", "C"], ["B", "A", "C"]]
        [("A", "mA"), ("B", "mB"), ("C", "mC")] "mA") := by
  have hm : (("mA", 5) : String × Nat) ∈ calculate_aggregate_rankings
      [["A", "B", "C"], ["B", "A", "C"]]
      [("A", "mA"), ("B", "mB"), ("C", "mC")] := by decide
  exact ⟨hm, calculate_aggregate_rankings_borda.2.2 _ _ _ hm⟩

lemma except_bind_ok (a : GenState) (f : GenState → Except GenState GenState) :
    ((Except.ok a : Except GenState GenState) >>= f) = f a := rfl

lemma except_bind_error (e : GenState) (f : GenState → Except GenState GenState) :
    ((Except.error e : Except GenState GenState) >>= f) = Except.error e := rfl

lemma checkConnected_ok (w : StreamWorld) (s : GenState)
    (h : w.disconnected s.chk = false) :
    checkConnected w s = Except.ok ⟨s.events, s.actions, s.chk + 1⟩ := by
  have h2 : ¬ (w.disconnected s.chk = true) := by
    rw [h]
    exact Bool.false_ne_true
  rw [checkConnected, if_neg h2]

lemma progressRelay_cancel_at (w : StreamWorld) (mk : Model → Bool → StreamEv) :
    ∀ (items : List (Model × Bool)) (j : Nat) (s : GenState),
      j < items.length →
      (∀ k, k < j → w.disconnected (s.chk + k) = false) →
      w.disconnected (s.chk + j) = true →
      progressRelay w mk items s =
        Except.error ⟨s.events ++ (items.take j).map (fun it => mk it.1 it.2),
          s.actions, s.chk + j + 1⟩ := by
  intro items
  induction items with
  | nil => intro j s hj _ _; exact absurd hj (by simp)
  | cons it rest ih =>
    intro j s hj hbefore hat
    match j with
    | 0 =>
      have hat0 : w.disconnected s.chk = true := by simpa using hat
      have hchk : checkConnected w s = Except.error ⟨s.events, s.actions, s.chk + 1⟩ := by
        rw [checkConnected, if_pos hat0]
      rw [progressRelay, hchk]
      simp
    | Nat.succ j2 =>
      have h0 : w.disconnected s.chk = false := by
        have := hbefore 0 (Nat.succ_pos j2)
        simpa using this
      have hchk := checkConnected_ok w s h0
      rw [progressRelay, hchk]
      simp only
      have hrec := ih j2 (emitEv ⟨s.events, s.actions, s.chk + 1⟩ (mk it.1 it.2))
        (by simpa using hj)
        (by
          intro k hk
          have := hbefore (k + 1) (by omega)
          rw [show (emitEv ⟨s.events, s.actions, s.chk + 1⟩ (mk it.1 it.2)).chk
            = s.chk + 1 from rfl]
          rw [show s.chk + 1 + k = s.chk + (k + 1) by omega]
          exact this)
        (by
          rw [show (emitEv ⟨s.events, s.actions, s.chk + 1⟩ (mk it.1 it.2)).chk
            = s.chk + 1 from rfl]
          rw [show s.chk + 1 + j2 = s.chk + (j2 + 1) by omega]
          exact hat)
      rw [hrec]
      simp only [emitEv, Except.error.injEq, GenState.mk.injEq]
      refine ⟨?_, trivial, by omega⟩
      rw [List.take_succ_cons, List.map_cons, List.append_assoc]
      rfl

/-- C8: if the client disconnects while stage 1 is in progress — the
disconnect check of the j-th stage-1 progress delivery observes the
cancellation — then the stream carries no events beyond `stage1_start`
and the progress events already relayed (nothing after the observation:
no `stage1_complete`, no stage-2/3 events, no `complete`), and the only
persistence call made is `add_user_message`: no assistant message is
persisted for the turn. -/
theorem stream_cancel_mid_stage1 (w : StreamWorld) (j : Nat)
    (hj : j < w.stage1Items.length)
    (hbefore : ∀ k, k < 2 + j → w.disconnected k = false)
    (hat : w.disconnected (2 + j) = true) :
    event_generator w =
      ⟨StreamEv.stage1Start ::
        (w.stage1Items.take j).map (fun it => StreamEv.stage1Progress it.1 it.2),
       [StoreAct.addUserMessage], true⟩ := by
  have h0 : w.disconnected 0 = false := hbefore 0 (by omega)
  have h1 : w.disconnected 1 = false := hbefore 1 (by omega)
  have hchk0 : checkConnected w ⟨[], [], 0⟩ = Except.ok ⟨[], [], 1⟩ :=
    checkConnected_ok w ⟨[], [], 0⟩ h0
  have hchk1 : checkConnected w ⟨[], [StoreAct.addUserMessage], 1⟩
      = Except.ok ⟨[], [StoreAct.addUserMessage], 2⟩ :=
    checkConnected_ok w ⟨[], [StoreAct.addUserMessage], 1⟩ h1
  have hrelay := progressRelay_cancel_at w
    (fun m ok => StreamEv.stage1Progress m ok) w.stage1Items j
    ⟨[StreamEv.stage1Start], [StoreAct.addUserMessage], 2⟩ hj
    (fun k hk => hbefore (2 + k) (by omega)) hat
  have hrun : event_generator_run w = Except.error
      ⟨[StreamEv.stage1Start] ++
        (w.stage1Items.take j).map (fun it => StreamEv.stage1Progress it.1 it.2),
       [StoreAct.addUserMessage], 2 + j + 1⟩ := by
    unfold event_generator_run
    simp only [hchk0, except_bind_ok, recordAct, List.nil_append]
    simp only [hchk1, except_bind_ok, emitEv, List.nil_append]
    simp only [hrelay, except_bind_error]
  unfold event_generator
  rw [hrun]
  rfl

/-- Witness for C8 at a concrete input: the disconnect is observed at
the second stage-1 progress check; only the first progress event was
streamed and no assistant message was persisted. -/
theorem stream_cancel_mid_stage1_witness :
    (1 < (([("m1", true), ("m2", true)] : List (Model × Bool))).length) ∧
    (∀ k, k < 2 + 1 → (fun k => decide (k = 3)) k = false) ∧
    ((fun k => decide (k = 3)) (2 + 1) = true) ∧
    event_generator
      ⟨fun k => decide (k = 3), true, [("m1", true), ("m2", true)], []⟩ =
      ⟨[StreamEv.stage1Start, StreamEv.stage1Progress "m1" true],
       [StoreAct.addUserMessage], true⟩ := by
  have hj : 1 < (([("m1", true), ("m2", true)] : List (Model × Bool))).length := by
    decide
  have hb : ∀ k, k < 2 + 1 → (fun k => decide (k = 3)) k = false := by decide
  have ha : (fun k => decide (k = 3)) (2 + 1) = true := by decide
  have hmain := stream_cancel_mid_stage1
    ⟨fun k => decide (k = 3), true, [("m1", true), ("m2", true)], []⟩ 1 hj hb ha
  exact ⟨hj, hb, ha, hmain⟩
